import Mathlib

/-!
Verification of the flshm shared-memory local-messaging library.

The repository ships the public header `src/flshm.h` (layout constants,
enumerations, structure and function declarations) and two CLI utilities
(`util/flshmmessagetick.c`, `util/flshmmessagewrite.c`).  The implementation
file with the bodies of the `flshm_*` functions is not part of the source
tree, so the message codec, the tick/clear operations and the connection
registry are modelled from the specification, while the constants, the
enumerations and the CLI tool are embedded directly from the source.

Machine integers are modelled as `Nat` (unsigned) or `Int` (C `enum`s, which
are `int`-valued), byte strings as `List Nat` with every element below 256.
-/

namespace Flshm

/-! ## Layout constants, from src/flshm.h -/

/-- The size of the shared memory (`FLSHM_SIZE`). -/
def FLSHM_SIZE : Nat := 64528

/-- The offset of the tick for which a message is sent. -/
def FLSHM_MESSAGE_TICK_OFFSET : Nat := 8

/-- The offset at which a message size is written. -/
def FLSHM_MESSAGE_SIZE_OFFSET : Nat := 12

/-- The offset at which the message body is written. -/
def FLSHM_MESSAGE_BODY_OFFSET : Nat := 16

/-- The maximum size an encoded message can be, includes all but the header. -/
def FLSHM_MESSAGE_MAX_SIZE : Nat := 40960

/-- The offset of the list of connection names. -/
def FLSHM_CONNECTIONS_OFFSET : Nat := 40976

/-- The size of the list of connection names. -/
def FLSHM_CONNECTIONS_SIZE : Nat := 23552

/-- The maximum number of connections that are allowed. -/
def FLSHM_CONNECTIONS_MAX_COUNT : Nat := 8

/-! ## The security sandbox enumeration, from src/flshm.h

The C header declares
`FLSHM_SECURITY_NONE = -1`, `FLSHM_SECURITY_REMOTE = 0`,
`FLSHM_SECURITY_LOCAL_WITH_FILE = 1`, `FLSHM_SECURITY_LOCAL_WITH_NETWORK = 2`,
`FLSHM_SECURITY_LOCAL_TRUSTED = 3`, `FLSHM_SECURITY_APPLICATION = 5`.
The value 4 is deliberately absent ("If the gap number exists, it is
unknown"). -/

/-- The security sandbox used by a message, as an inductive mirror of the
C enumeration `flshm_security`. -/
inductive flshm_security where
  | NONE
  | REMOTE
  | LOCAL_WITH_FILE
  | LOCAL_WITH_NETWORK
  | LOCAL_TRUSTED
  | APPLICATION
deriving DecidableEq

/-- The numeric value each `flshm_security` enumerator carries in the header. -/
def flshm_security.toInt : flshm_security → Int
  | .NONE => -1
  | .REMOTE => 0
  | .LOCAL_WITH_FILE => 1
  | .LOCAL_WITH_NETWORK => 2
  | .LOCAL_TRUSTED => 3
  | .APPLICATION => 5

/-- Decode a numeric sandbox value back to the enumerator carrying it, if any.
This is the inverse of `flshm_security.toInt` on the header's value set. -/
def flshm_security.ofInt (i : Int) : Option flshm_security :=
  if i = -1 then some .NONE
  else if i = 0 then some .REMOTE
  else if i = 1 then some .LOCAL_WITH_FILE
  else if i = 2 then some .LOCAL_WITH_NETWORK
  else if i = 3 then some .LOCAL_TRUSTED
  else if i = 5 then some .APPLICATION
  else none

end Flshm

namespace Flshm

/-! ## Message record, from src/flshm.h (struct flshm_message)

Field types follow the C struct: `uint32_t` fields become `Nat` (validity
bounds them below `2^32`), the `flshm_version` and `flshm_security` enum
fields become `Int` (C enums are `int`-valued and the CLI tool stores
computed integers into them), `flshm_amf` becomes `Nat` (the CLI parses it
with `%u`), and the string/byte-buffer fields become `List Nat` of byte
values. -/

/-- Message structure containing all the data for an active message,
mirroring `struct flshm_message` field for field. -/
structure flshm_message where
  tick : Nat
  amfl : Nat
  name : List Nat
  host : List Nat
  version : Int
  sandboxed : Bool
  https : Bool
  sandbox : Int
  swfv : Nat
  filepath : List Nat
  amfv : Nat
  method : List Nat
  size : Nat
  data : List Nat
deriving DecidableEq, Repr

/-! ## Byte-level helpers for the modelled codec -/

/-- Byte of a C `bool`: 1 for true, 0 for false. -/
def b2n (b : Bool) : Nat := if b then 1 else 0

/-- Little-endian 4-byte encoding of a 32-bit unsigned value. -/
def u32enc (n : Nat) : List Nat :=
  [n % 256, n / 256 % 256, n / 65536 % 256, n / 16777216 % 256]

/-- Little-endian decoding of the first 4 bytes of a list (missing bytes
read as 0). -/
def u32dec (l : List Nat) : Nat :=
  l.getD 0 0 + 256 * l.getD 1 0 + 65536 * l.getD 2 0 + 16777216 * l.getD 3 0

/-- Byte encoding of a sandbox value: the header's comments give the values
-1..5 one-byte representations shifted by one (connection strings are
1-indexed), so value `i` is stored as the byte `i + 1`. -/
def secEnc (i : Int) : Nat := (i + 1).toNat

/-- Decoding of a sandbox byte, inverse of `secEnc` on the valid range. -/
def secDec (b : Nat) : Int := (b : Int) - 1

/-- Split a NUL-terminated byte string off the front of a buffer, returning
the string (without terminator) and the rest of the buffer. -/
def parseCStr : List Nat → List Nat × List Nat
  | [] => ([], [])
  | b :: bs =>
    if b = 0 then ([], bs)
    else
      let r := parseCStr bs
      (b :: r.1, r.2)

/-! ## The message codec, modelled from the spec

Modelled from the spec: the implementation file with the bodies of
`flshm_message_write`, `flshm_message_read`, `flshm_message_tick` and
`flshm_message_clear` is not under `src/`; only the header declares them.
Spec §4.4: encode serializes fields into the body region using a
version-gated layout (fields introduced at version `v` are only written when
`message.version >= v`), strings use a NUL-terminated convention, the body
length is stored in the size field and the tick last; decode reconstructs
the version-gated field set symmetrically, with absent-for-this-version
fields left at documented defaults (sandbox "none" = -1, amf version AMF0
= 0).  The spec leaves the exact byte order of the fields open; this model
fixes one concrete version-gated layout: a version byte, the name and host
strings, then per version the two boolean bytes (v≥2), the sandbox byte,
the SWF version word and the conditional filepath string (v≥3, filepath
only when sandbox = 1 i.e. local-with-file), the AMF version byte (v≥4),
and finally the method string, the 4-byte argument size and the argument
bytes. -/

/-- Modelled from the spec: the version-gated encoding of a message body
(spec §4.4 Encode), as laid out above. -/
def flshm_body_enc (m : flshm_message) : List Nat :=
  m.version.toNat ::
  (m.name ++ 0 ::
  (m.host ++ 0 ::
  ((if 2 ≤ m.version then [b2n m.sandboxed, b2n m.https] else []) ++
  ((if 3 ≤ m.version then
      secEnc m.sandbox ::
        (u32enc m.swfv ++ (if m.sandbox = 1 then m.filepath ++ [0] else []))
    else []) ++
  ((if 4 ≤ m.version then [m.amfv] else []) ++
  (m.method ++ 0 ::
  (u32enc m.size ++ m.data)))))))

/-- Modelled from the spec: the version-gated decoding of a message body
(spec §4.4 Decode), symmetric with `flshm_body_enc`; fields absent for the
decoded version take the documented defaults (`sandbox = -1`, `amfv = 0`,
booleans false, empty filepath).  The `tick` and `amfl` fields are taken
from the segment's tick and size header fields. -/
def flshm_body_dec (tick amfl : Nat) (bs0 : List Nat) : flshm_message :=
  let v : Int := (bs0.headD 1 : Nat)
  let bs1 := bs0.drop 1
  let p1 := parseCStr bs1
  let p2 := parseCStr p1.2
  let bs2 := p2.2
  let sandboxed : Bool := if 2 ≤ v then bs2.headD 0 != 0 else false
  let https : Bool := if 2 ≤ v then (bs2.drop 1).headD 0 != 0 else false
  let bs3 := if 2 ≤ v then bs2.drop 2 else bs2
  let sandbox : Int := if 3 ≤ v then secDec (bs3.headD 0) else -1
  let bs4 := if 3 ≤ v then bs3.drop 1 else bs3
  let swfv : Nat := if 3 ≤ v then u32dec bs4 else 0
  let bs5 := if 3 ≤ v then bs4.drop 4 else bs4
  let pf := if 3 ≤ v ∧ sandbox = 1 then parseCStr bs5 else ([], bs5)
  let amfv : Nat := if 4 ≤ v then pf.2.headD 0 else 0
  let bs6 := if 4 ≤ v then pf.2.drop 1 else pf.2
  let pm := parseCStr bs6
  let size := u32dec pm.2
  { tick := tick, amfl := amfl, name := p1.1, host := p2.1, version := v,
    sandboxed := sandboxed, https := https, sandbox := sandbox, swfv := swfv,
    filepath := pf.1, amfv := amfv, method := pm.1, size := size,
    data := (pm.2.drop 4).take size }

/-- Fields of a message are valid for its declared version: version in 1..4,
strings NUL-free bytes, the size field consistent with the data buffer,
numeric fields within their C ranges, the sandbox within the header's value
set and the encoded body within the 40960-byte region. -/
def flshm_message_valid (m : flshm_message) : Prop :=
  m.tick ≠ 0 ∧ m.tick < 4294967296 ∧
  1 ≤ m.version ∧ m.version ≤ 4 ∧
  (∀ b ∈ m.name, 0 < b ∧ b < 256) ∧
  (∀ b ∈ m.host, 0 < b ∧ b < 256) ∧
  (∀ b ∈ m.method, 0 < b ∧ b < 256) ∧
  (∀ b ∈ m.filepath, 0 < b ∧ b < 256) ∧
  (∀ b ∈ m.data, b < 256) ∧
  m.size = m.data.length ∧ m.size < 4294967296 ∧
  -1 ≤ m.sandbox ∧ m.sandbox ≤ 5 ∧ m.sandbox ≠ 4 ∧
  m.swfv < 4294967296 ∧
  (m.amfv = 0 ∨ m.amfv = 3) ∧
  (flshm_body_enc m).length ≤ FLSHM_MESSAGE_MAX_SIZE

/-- Connection descriptor, mirroring `struct flshm_connection`: name bytes,
protocol version and sandbox classification. -/
structure flshm_connection where
  name : List Nat
  version : Int
  sandbox : Int
deriving DecidableEq, Repr

/-- The state of the shared segment relevant to the API: the tick field
(offset 8), the message size field (offset 12), the message body region
(offset 16, 40960 bytes) and the connection list region (offset 40976) as
8 optional slots. -/
structure flshm_shm where
  tick : Nat
  size : Nat
  body : List Nat
  conns : List (Option flshm_connection)
deriving DecidableEq, Repr

/-- A freshly created segment: all bytes zero, so tick 0, size 0, a zero
body region and 8 empty connection slots. -/
def flshm_init : flshm_shm :=
  { tick := 0, size := 0, body := List.replicate 40960 0,
    conns := List.replicate 8 none }

/-- Modelled from the spec: `flshm_message_tick` reads just the 4 bytes at
the tick offset, returning 0 if unset (spec §4.4 Tick-only read). -/
def flshm_message_tick (s : flshm_shm) : Nat := s.tick

/-- Modelled from the spec: `flshm_message_write` validates that the encoded
size does not exceed 40960 and fails without writing if it does; otherwise
it serializes the body at offset 16, stores the body length at offset 12 and
the tick at offset 8 (spec §4.4 Encode).  Bytes of the body region beyond
the encoded length keep their previous values. -/
def flshm_message_write (s : flshm_shm) (m : flshm_message) :
    Bool × flshm_shm :=
  let enc := flshm_body_enc m
  if enc.length ≤ FLSHM_MESSAGE_MAX_SIZE then
    (true, { s with body := enc ++ s.body.drop enc.length,
                    size := enc.length, tick := m.tick })
  else (false, s)

/-- Modelled from the spec: `flshm_message_read` first reads the tick; if
zero it returns an absent result (no message pending) rather than an error,
otherwise it decodes the body region (spec §4.4 Decode). -/
def flshm_message_read (s : flshm_shm) : Option flshm_message :=
  if s.tick = 0 then none else some (flshm_body_dec s.tick s.size s.body)

/-- Modelled from the spec: `flshm_message_clear` zeroes the tick and size
fields only, leaving stale body bytes in place (spec §4.4 Clear). -/
def flshm_message_clear (s : flshm_shm) : flshm_shm :=
  { s with tick := 0, size := 0 }

/-- Fields of the decoded record `b` that are meaningful for the written
record `a`'s version agree with `a`: name, host, version, method, size and
data always; the sandboxed and https flags from version 2; sandbox and SWF
version from version 3; the filepath from version 3 when the sandbox is
local-with-file (1); the AMF version from version 4.  The `amfl` field is
codec bookkeeping (total encoded length), not a version-gated message field,
and is not asserted. -/
def flshm_meaningful_eq (a b : flshm_message) : Prop :=
  b.tick = a.tick ∧ b.name = a.name ∧ b.host = a.host ∧
  b.version = a.version ∧ b.method = a.method ∧ b.size = a.size ∧
  b.data = a.data ∧
  (2 ≤ a.version → b.sandboxed = a.sandboxed ∧ b.https = a.https) ∧
  (3 ≤ a.version → b.sandbox = a.sandbox ∧ b.swfv = a.swfv) ∧
  (3 ≤ a.version → a.sandbox = 1 → b.filepath = a.filepath) ∧
  (4 ≤ a.version → b.amfv = a.amfv)

instance (m : flshm_message) : Decidable (flshm_message_valid m) := by
  unfold flshm_message_valid; infer_instance

instance (a b : flshm_message) : Decidable (flshm_meaningful_eq a b) := by
  unfold flshm_meaningful_eq; infer_instance

/-! ## Codec lemmas -/

/-- Parsing a NUL-terminated string appended before the rest of a buffer
recovers the string and the rest, provided the string itself is NUL-free. -/
theorem parseCStr_append {s : List Nat} (h : ∀ b ∈ s, b ≠ 0) (r : List Nat) :
    parseCStr (s ++ 0 :: r) = (s, r) := by
  induction s with
  | nil => simp [parseCStr]
  | cons b t ih =>
    have hb : b ≠ 0 := h b (List.mem_cons_self b t)
    have ht : ∀ x ∈ t, x ≠ 0 := fun x hx => h x (List.mem_cons_of_mem b hx)
    simp [parseCStr, hb, ih ht]

/-- Little-endian decode inverts encode for values below `2^32`, for any
trailing bytes. -/
theorem u32dec_enc {n : Nat} (h : n < 4294967296) (r : List Nat) :
    u32dec (u32enc n ++ r) = n := by
  simp only [u32enc, u32dec, List.cons_append, List.nil_append, List.getD_cons_zero,
    List.getD_cons_succ]
  omega

/-- Dropping the 4 encoded bytes of a 32-bit value exposes the rest. -/
theorem u32enc_drop (n : Nat) (r : List Nat) : (u32enc n ++ r).drop 4 = r := by
  simp [u32enc]

/-- The boolean byte decodes back to the boolean. -/
theorem b2n_bne (b : Bool) : (b2n b != 0) = b := by
  cases b <;> rfl

/-- The sandbox byte decodes back to the sandbox value on the signed range
starting at -1. -/
theorem secDec_secEnc {i : Int} (h : -1 ≤ i) : secDec (secEnc i) = i := by
  simp only [secEnc, secDec]
  omega

/-- Closed formula for the length of an encoded body: one version byte, the
three NUL-terminated strings, the 4-byte size word and the data bytes, plus
the version-gated blocks. -/
theorem flshm_body_enc_length (m : flshm_message) :
    (flshm_body_enc m).length =
      1 + (m.name.length + 1) + (m.host.length + 1) +
      (if 2 ≤ m.version then 2 else 0) +
      (if 3 ≤ m.version then
        5 + (if m.sandbox = 1 then m.filepath.length + 1 else 0) else 0) +
      (if 4 ≤ m.version then 1 else 0) +
      (m.method.length + 1) + (4 + m.data.length) := by
  by_cases h2 : 2 ≤ m.version <;> by_cases h3 : 3 ≤ m.version <;>
    by_cases h4 : 4 ≤ m.version <;> by_cases hsb : m.sandbox = 1 <;>
      simp [flshm_body_enc, u32enc, h2, h3, h4, hsb] <;> omega

/-- Decoding an encoded body (with arbitrary trailing stale bytes) recovers
every field meaningful for the encoded message's version. -/
theorem flshm_body_dec_enc (m : flshm_message) (amfl : Nat) (rest : List Nat)
    (h : flshm_message_valid m) :
    flshm_meaningful_eq m
      (flshm_body_dec m.tick amfl (flshm_body_enc m ++ rest)) := by
  obtain ⟨ht0, ht32, hv1, hv4, hname, hhost, hmethod, hfp, hdata, hsz, hsz32,
    hsbl, hsbu, hsb4, hswfv, hamfv, henc⟩ := h
  have hname0 : ∀ b ∈ m.name, b ≠ 0 := fun b hb => by
    have := hname b hb; omega
  have hhost0 : ∀ b ∈ m.host, b ≠ 0 := fun b hb => by
    have := hhost b hb; omega
  have hmethod0 : ∀ b ∈ m.method, b ≠ 0 := fun b hb => by
    have := hmethod b hb; omega
  have hfp0 : ∀ b ∈ m.filepath, b ≠ 0 := fun b hb => by
    have := hfp b hb; omega
  have htake : ∀ r : List Nat, (m.data ++ r).take m.size = m.data := by
    intro r; rw [hsz]; exact List.take_left m.data r
  have hvc : m.version = 1 ∨ m.version = 2 ∨ m.version = 3 ∨ m.version = 4 := by
    omega
  unfold flshm_meaningful_eq
  rcases hvc with hv | hv | hv | hv <;>
    by_cases hsb : m.sandbox = 1 <;>
      simp [flshm_body_enc, flshm_body_dec, hv, hsb,
        parseCStr_append hname0, parseCStr_append hhost0,
        parseCStr_append hmethod0, parseCStr_append hfp0,
        u32dec_enc hsz32, u32dec_enc hswfv, u32enc_drop, b2n_bne,
        secDec_secEnc hsbl, show secDec (secEnc 1) = 1 from by decide, htake]

/-- Sample message exercising every version-gated field (version 4,
local-with-file sandbox with a filepath), used by concrete witnesses. -/
def mC2 : flshm_message :=
  { tick := 7, amfl := 0, name := [97, 98], host := [104, 111], version := 4,
    sandboxed := true, https := false, sandbox := 1, swfv := 300,
    filepath := [47, 102], amfv := 3, method := [109], size := 3,
    data := [1, 2, 3] }

/-- Version-1 message with empty strings and `n` zero data bytes; its
encoded body is `n + 8` bytes (version byte, three NUL terminators and the
4-byte size word). -/
def mPlain (t n : Nat) : flshm_message :=
  { tick := t, amfl := 0, name := [], host := [], version := 1,
    sandboxed := false, https := false, sandbox := -1, swfv := 0,
    filepath := [], amfv := 0, method := [], size := n,
    data := List.replicate n 0 }

/-! ## Connection registry, modelled from the spec

Modelled from the spec: the implementation file with the bodies of
`flshm_connection_name_valid`, `flshm_connection_list`,
`flshm_connection_add` and `flshm_connection_remove` is not under `src/`;
only the header declares them.  Spec §4.5: the registry is a fixed 8-slot
region; a slot is empty by its own sentinel condition; list returns the
populated descriptors compacted in encounter order; add fails on capacity
(8 entries), duplicate name or invalid name, otherwise writes into the
first free slot; remove fails when no entry matches the given name,
otherwise clears that slot's sentinel without shifting other entries. -/

/-- Modelled from the spec: `flshm_connection_name_valid` checks a fixed
character/length policy (spec §4.5 Name validity).  The exact grammar is an
open question of the spec (§9), so the model fixes a simple policy:
nonempty, NUL-free byte values, and short enough for one of the 8 equal
shares of the 23552-byte connection region. -/
def flshm_connection_name_valid (name : List Nat) : Bool :=
  decide (name ≠ [] ∧
    name.length < FLSHM_CONNECTIONS_SIZE / FLSHM_CONNECTIONS_MAX_COUNT ∧
    ∀ b ∈ name, 0 < b ∧ b < 256)

/-- First index of an element satisfying `p`, scanning left to right. -/
def firstIdxP {α : Type} (p : α → Bool) : List α → Option Nat
  | [] => none
  | o :: rest => if p o then some 0 else (firstIdxP p rest).map (· + 1)

/-- Slot predicate for remove: a populated slot whose name equals the given
connection's name (the name is the key, spec §4.5 Remove). -/
def connMatches (c : flshm_connection) : Option flshm_connection → Bool
  | some e => e.name == c.name
  | none => false

/-- Modelled from the spec: `flshm_connection_list` parses the 8-slot
region into the populated descriptors, compacted in encounter order
(spec §4.5 List); the count of the C `flshm_connected` result is the length
of this list. -/
def flshm_connection_list (s : flshm_shm) : List flshm_connection :=
  s.conns.filterMap id

/-- Modelled from the spec: `flshm_connection_add` rejects an invalid name
without mutating state, fails if the registry already holds 8 entries or a
connection with the same name exists, and otherwise writes the descriptor
into the first free slot (spec §4.5 Add, Name validity). -/
def flshm_connection_add (s : flshm_shm) (c : flshm_connection) :
    Bool × flshm_shm :=
  if flshm_connection_name_valid c.name then
    if (flshm_connection_list s).length < FLSHM_CONNECTIONS_MAX_COUNT then
      if (flshm_connection_list s).any (fun e => e.name == c.name) then
        (false, s)
      else
        match firstIdxP (fun o => o.isNone) s.conns with
        | some i => (true, { s with conns := s.conns.set i (some c) })
        | none => (false, s)
    else (false, s)
  else (false, s)

/-- Modelled from the spec: `flshm_connection_remove` fails (returns false)
if no entry matches the given name, otherwise clears that slot's sentinel so
the slot is treated as free, shifting nothing (spec §4.5 Remove). -/
def flshm_connection_remove (s : flshm_shm) (c : flshm_connection) :
    Bool × flshm_shm :=
  match firstIdxP (connMatches c) s.conns with
  | some i => (true, { s with conns := s.conns.set i none })
  | none => (false, s)

/-- Registry invariant (spec §3): the region has exactly 8 slots, all
populated entries carry valid names, and the populated names are pairwise
distinct. -/
def flshm_registry_inv (s : flshm_shm) : Prop :=
  s.conns.length = FLSHM_CONNECTIONS_MAX_COUNT ∧
  (∀ e ∈ flshm_connection_list s,
    flshm_connection_name_valid e.name = true) ∧
  ((flshm_connection_list s).map flshm_connection.name).Nodup

instance (s : flshm_shm) : Decidable (flshm_registry_inv s) := by
  unfold flshm_registry_inv; infer_instance

/-- Valid sample connection for concrete registry witnesses. -/
def cSample : flshm_connection := { name := [97], version := 1, sandbox := -1 }

/-- Invalid-name sample connection (empty name) for concrete registry
counterexamples. -/
def cInvalid : flshm_connection := { name := [], version := 1, sandbox := -1 }

/-! ## The message-writing CLI tool, from src/util/flshmmessagewrite.c

The tool's argument-handling phase is embedded from the source: `main`
checks `argc < 13` and prints the usage string, parses tick, sandbox, swfv
and amfv with `sscanf("%u")` (printing `ERROR: <field>: <arg>` and
returning `EXIT_FAILURE` when a scan fails, or when tick is zero), takes
name, host, filepath and method directly from `argv`, computes the version
as `argv[4][0] - '0'`, the two flags as `argv[5][0] != '0'` and
`argv[6][0] != '0'`, and decodes `argv[12]` with `hex_to_bin`, which also
yields the size.  `argv` strings are byte lists; `argv[i][0]` of an empty
string reads the NUL terminator, modelled by `headD 0`. -/

/-- ASCII byte values of a string literal, used to model the C string
constants of the CLI tool. -/
def asciiBytes (s : String) : List Nat := s.toList.map Char.toNat

/-- Decimal digit test on a byte. -/
def isDigitB (b : Nat) : Bool := decide (48 ≤ b ∧ b ≤ 57)

/-- Hexadecimal digit test on a byte, as accepted by `sscanf`'s `%x`. -/
def isHexDigitB (b : Nat) : Bool :=
  decide ((48 ≤ b ∧ b ≤ 57) ∨ (97 ≤ b ∧ b ≤ 102) ∨ (65 ≤ b ∧ b ≤ 70))

/-- Numeric value of a hexadecimal digit byte. -/
def hexVal (b : Nat) : Nat :=
  if 48 ≤ b ∧ b ≤ 57 then b - 48
  else if 97 ≤ b ∧ b ≤ 102 then b - 87
  else if 65 ≤ b ∧ b ≤ 70 then b - 55
  else 0

/-- Numeric value of a run of decimal digit bytes. -/
def digitsVal (l : List Nat) : Nat :=
  l.foldl (fun acc d => acc * 10 + (d - 48)) 0

/-- Model of `sscanf(arg, "%u", &x)`: skip leading spaces, then read a
nonempty run of decimal digits; returns `none` (scan count 0) when no digit
is found.  The sign and base details of `strtoul` beyond the digit-run case
the tool relies on are abstracted; the stored value wraps modulo `2^32`. -/
def sscanf_u (s : List Nat) : Option Nat :=
  let t := s.dropWhile (fun b => b == 32)
  let ds := t.takeWhile isDigitB
  if ds.isEmpty then none else some (digitsVal ds % 4294967296)

/-- The CLI hex decoder `hex_to_bin`: takes the input length, drops a
trailing odd character (`if (len_hex % 2) len_hex--`), allocates
`len_hex / 2` bytes and fills byte `i` by `sscanf(hex + 2*i, "%02x", &c)`,
ignoring the scan result.  `%02x` reads up to two hex digits (one when only
the first character is a hex digit); when no hex digit is present `c` stays
uninitialized and the C behaviour is undefined, modelled here as the byte 0.
The returned length is always `len_hex / 2`: there is no failure path. -/
def hex_to_bin (hex : List Nat) : List Nat × Nat :=
  let len0 := hex.length
  let len_hex := if len0 % 2 = 1 then len0 - 1 else len0
  let bin_len := len_hex / 2
  let bin := (List.range bin_len).map fun i =>
    let c1 := hex.getD (2 * i) 0
    let c2 := hex.getD (2 * i + 1) 0
    if isHexDigitB c1 && isHexDigitB c2 then 16 * hexVal c1 + hexVal c2
    else if isHexDigitB c1 then hexVal c1
    else 0
  (bin, bin_len)

/-- Conversion of the C `uint32_t sandbox` variable into the `int`-valued
`flshm_security` field of the message struct. -/
def u32_to_int (n : Nat) : Int :=
  if n < 2147483648 then (n : Int) else (n : Int) - 4294967296

/-- Outcome of the argument-handling phase of the tool's `main`: usage
printed (argc too small), an `ERROR:`-reported parse failure, or a built
message record handed on to the locked write. -/
inductive cli_outcome where
  | usage (arg0 : List Nat)
  | errorAt (field arg : List Nat)
  | proceed (msg : flshm_message)
deriving DecidableEq

/-- The argument-handling phase of `main` in flshmmessagewrite.c, embedded
check for check in source order.  The `amfl` field of the C record is left
uninitialized by the tool (the struct comes straight from `malloc`);
it is modelled as 0. -/
def flshmmessagewrite_parse (argv : List (List Nat)) : cli_outcome :=
  if argv.length < 13 then .usage (argv.getD 0 [])
  else
    match sscanf_u (argv.getD 1 []) with
    | none => .errorAt (asciiBytes "tick") (argv.getD 1 [])
    | some tick =>
      if tick = 0 then .errorAt (asciiBytes "tick") (argv.getD 1 [])
      else
        match sscanf_u (argv.getD 7 []) with
        | none => .errorAt (asciiBytes "sandbox") (argv.getD 7 [])
        | some sandbox =>
          match sscanf_u (argv.getD 8 []) with
          | none => .errorAt (asciiBytes "swfv") (argv.getD 8 [])
          | some swfv =>
            match sscanf_u (argv.getD 10 []) with
            | none => .errorAt (asciiBytes "amfv") (argv.getD 10 [])
            | some amfv =>
              let hb := hex_to_bin (argv.getD 12 [])
              .proceed
                { tick := tick, amfl := 0,
                  name := argv.getD 2 [], host := argv.getD 3 [],
                  version := ((argv.getD 4 []).headD 0 : Int) - 48,
                  sandboxed := (argv.getD 5 []).headD 0 != 48,
                  https := (argv.getD 6 []).headD 0 != 48,
                  sandbox := u32_to_int sandbox,
                  swfv := swfv, filepath := argv.getD 9 [],
                  amfv := amfv, method := argv.getD 11 [],
                  size := hb.2, data := hb.1 }

/-- The bytes the argument-handling phase prints to the standard output
stream (`printf`), per outcome. -/
def cli_printed : cli_outcome → List Nat
  | .usage arg0 =>
      arg0 ++ asciiBytes
        " tick name host version sandboxed https sandbox swfv filepath amfv method size data\n"
  | .errorAt field arg =>
      asciiBytes "ERROR: " ++ field ++ asciiBytes ": " ++ arg ++
        asciiBytes "\n"
  | .proceed _ => []

/-- The process exit status the argument-handling phase decides:
`EXIT_FAILURE` (1) for the usage and error outcomes; for `proceed` the
phase contributes `EXIT_SUCCESS` (0) and the later channel operations
determine the final status. -/
def cli_code : cli_outcome → Nat
  | .usage _ => 1
  | .errorAt _ _ => 1
  | .proceed _ => 0

/-- Thirteen well-formed CLI arguments whose data argument `argv[12]`
contains no hexadecimal digit at all. -/
def argvBadHex : List (List Nat) :=
  [asciiBytes "flshmmessagewrite", asciiBytes "1", asciiBytes "n",
   asciiBytes "h", asciiBytes "1", asciiBytes "0", asciiBytes "0",
   asciiBytes "0", asciiBytes "0", asciiBytes "f", asciiBytes "0",
   asciiBytes "m", asciiBytes "zz"]

/-- Thirteen well-formed CLI arguments with a non-numeric tick argument. -/
def argvNoTick : List (List Nat) :=
  [asciiBytes "flshmmessagewrite", asciiBytes "x", asciiBytes "n",
   asciiBytes "h", asciiBytes "1", asciiBytes "0", asciiBytes "0",
   asciiBytes "0", asciiBytes "0", asciiBytes "f", asciiBytes "0",
   asciiBytes "m", asciiBytes "00"]

/-- Thirteen well-formed CLI arguments with the valid hex data `0aff`. -/
def argvGood : List (List Nat) :=
  [asciiBytes "flshmmessagewrite", asciiBytes "5", asciiBytes "n",
   asciiBytes "h", asciiBytes "4", asciiBytes "1", asciiBytes "0",
   asciiBytes "5", asciiBytes "9", asciiBytes "f", asciiBytes "3",
   asciiBytes "m", asciiBytes "0aff"]

/-- The message record the tool builds from `argvGood`. -/
def mGood : flshm_message :=
  { tick := 5, amfl := 0, name := asciiBytes "n", host := asciiBytes "h",
    version := 4, sandboxed := true, https := false, sandbox := 5,
    swfv := 9, filepath := asciiBytes "f", amfv := 3,
    method := asciiBytes "m", size := 2, data := [10, 255] }

/-- C1: the layout constants are exactly as specified and tile the
64528-byte segment: tick at offset 8, message size at offset 12, body at
offset 16 with maximum encoded size 40960, connection list at offset 40976
with size 23552 and at most 8 entries, with 16 + 40960 = 40976 and
40976 + 23552 = 64528. -/
theorem flshm_layout_constants_tile :
    FLSHM_MESSAGE_TICK_OFFSET = 8 ∧
    FLSHM_MESSAGE_SIZE_OFFSET = 12 ∧
    FLSHM_MESSAGE_BODY_OFFSET = 16 ∧
    FLSHM_MESSAGE_MAX_SIZE = 40960 ∧
    FLSHM_CONNECTIONS_OFFSET = 40976 ∧
    FLSHM_CONNECTIONS_SIZE = 23552 ∧
    FLSHM_CONNECTIONS_MAX_COUNT = 8 ∧
    FLSHM_MESSAGE_BODY_OFFSET + FLSHM_MESSAGE_MAX_SIZE = FLSHM_CONNECTIONS_OFFSET ∧
    FLSHM_CONNECTIONS_OFFSET + FLSHM_CONNECTIONS_SIZE = FLSHM_SIZE := by
  decide

/-- C3: the sandbox classification is a signed-integer enumeration taking
exactly the values -1, 0, 1, 2, 3 and 5, with 4 deliberately absent, and
encoding then decoding the value 5 yields 5 again, never colliding with
3 or 4. -/
theorem flshm_security_enum_fidelity :
    (∀ s : flshm_security,
      s.toInt = -1 ∨ s.toInt = 0 ∨ s.toInt = 1 ∨ s.toInt = 2 ∨
      s.toInt = 3 ∨ s.toInt = 5) ∧
    (∀ i : Int, -1 ≤ i → i ≤ 5 → i ≠ 4 → ∃ s, flshm_security.ofInt i = some s) ∧
    flshm_security.ofInt 4 = none ∧
    flshm_security.APPLICATION.toInt = 5 ∧
    flshm_security.ofInt 5 = some .APPLICATION ∧
    flshm_security.ofInt flshm_security.APPLICATION.toInt =
      some flshm_security.APPLICATION ∧
    flshm_security.APPLICATION.toInt ≠ 3 ∧
    flshm_security.APPLICATION.toInt ≠ 4 := by
  refine ⟨fun s => ?_, fun i h1 h2 h3 => ?_, ?_, ?_, ?_, ?_, ?_, ?_⟩
  · cases s <;> simp [flshm_security.toInt]
  · have : i = -1 ∨ i = 0 ∨ i = 1 ∨ i = 2 ∨ i = 3 ∨ i = 5 := by omega
    rcases this with h | h | h | h | h | h <;>
      subst h <;> exact ⟨_, rfl⟩
  all_goals decide

/-- Witness for `flshm_security_enum_fidelity`: the decode side at the
concrete in-range value 2. -/
theorem flshm_security_enum_fidelity_witness :
    (-1 : Int) ≤ 2 ∧ (2 : Int) ≤ 5 ∧ (2 : Int) ≠ 4 ∧
    ∃ s, flshm_security.ofInt 2 = some s :=
  ⟨by decide, by decide, by decide,
    flshm_security_enum_fidelity.2.1 2 (by decide) (by decide) (by decide)⟩

/-- C2: for every message record whose fields are valid for its declared
version, write followed by read on the same segment yields a record agreeing
on all fields meaningful for that version (fields not meaningful for the
version are not asserted). -/
theorem flshm_write_read_roundtrip (s : flshm_shm) (m : flshm_message)
    (h : flshm_message_valid m) :
    ∃ m', flshm_message_read (flshm_message_write s m).2 = some m' ∧
      flshm_meaningful_eq m m' := by
  have ht0 : m.tick ≠ 0 := h.1
  have henc : (flshm_body_enc m).length ≤ FLSHM_MESSAGE_MAX_SIZE := by
    obtain ⟨-, -, -, -, -, -, -, -, -, -, -, -, -, -, -, -, henc⟩ := h
    exact henc
  refine ⟨_, ?_,
    flshm_body_dec_enc m (flshm_body_enc m).length
      (s.body.drop (flshm_body_enc m).length) h⟩
  simp [flshm_message_write, flshm_message_read, henc, ht0]

/-- Witness for `flshm_write_read_roundtrip`: the round trip at a concrete
version-4 message on a fresh segment. -/
theorem flshm_write_read_roundtrip_witness :
    flshm_message_valid mC2 ∧
    ∃ m', flshm_message_read (flshm_message_write flshm_init mC2).2 = some m' ∧
      flshm_meaningful_eq mC2 m' :=
  ⟨by decide, flshm_write_read_roundtrip flshm_init mC2 (by decide)⟩

/-- C4: a message whose encoded body exceeds 40960 bytes makes write return
false leaving the whole segment (hence the tick reported by a subsequent
tick call) unmodified, while a message whose encoded body is exactly 40960
bytes is written successfully. -/
theorem flshm_write_size_boundary (s : flshm_shm) (m : flshm_message) :
    (FLSHM_MESSAGE_MAX_SIZE < (flshm_body_enc m).length →
      flshm_message_write s m = (false, s) ∧
      flshm_message_tick (flshm_message_write s m).2 = flshm_message_tick s) ∧
    ((flshm_body_enc m).length = FLSHM_MESSAGE_MAX_SIZE →
      (flshm_message_write s m).1 = true) := by
  constructor
  · intro h
    have hn : ¬ (flshm_body_enc m).length ≤ FLSHM_MESSAGE_MAX_SIZE := by omega
    constructor <;> simp [flshm_message_write, flshm_message_tick, hn]
  · intro h
    simp [flshm_message_write, h]

/-- Encoded length of the parametric plain message. -/
theorem mPlain_enc_length (t n : Nat) :
    (flshm_body_enc (mPlain t n)).length = n + 8 := by
  rw [flshm_body_enc_length]
  simp [mPlain]
  omega

/-- Witness for `flshm_write_size_boundary`: on a fresh segment, the
40961-byte encoding of `mPlain 1 40953` is rejected with the segment
unchanged and the exactly-40960-byte encoding of `mPlain 1 40952` is
accepted. -/
theorem flshm_write_size_boundary_witness :
    (FLSHM_MESSAGE_MAX_SIZE < (flshm_body_enc (mPlain 1 40953)).length ∧
      flshm_message_write flshm_init (mPlain 1 40953) = (false, flshm_init)) ∧
    ((flshm_body_enc (mPlain 1 40952)).length = FLSHM_MESSAGE_MAX_SIZE ∧
      (flshm_message_write flshm_init (mPlain 1 40952)).1 = true) := by
  have h1 := mPlain_enc_length 1 40953
  have h2' := mPlain_enc_length 1 40952
  have h2 : (flshm_body_enc (mPlain 1 40952)).length = FLSHM_MESSAGE_MAX_SIZE := by
    rw [h2']; rfl
  have hlt : FLSHM_MESSAGE_MAX_SIZE < (flshm_body_enc (mPlain 1 40953)).length := by
    rw [h1]; decide
  exact ⟨⟨hlt, ((flshm_write_size_boundary flshm_init (mPlain 1 40953)).1 hlt).1⟩,
    ⟨h2, (flshm_write_size_boundary flshm_init (mPlain 1 40952)).2 h2⟩⟩

/-- C5: tick returns 0 on a fresh never-written segment, returns the written
tick value after a successful write, and returns 0 after clear; clear zeroes
only the tick and size fields, leaving the body bytes (and the connection
region) in place. -/
theorem flshm_tick_clear_semantics :
    flshm_message_tick flshm_init = 0 ∧
    (∀ s m, (flshm_message_write s m).1 = true →
      flshm_message_tick (flshm_message_write s m).2 = m.tick) ∧
    (∀ s : flshm_shm,
      flshm_message_tick (flshm_message_clear s) = 0 ∧
      (flshm_message_clear s).tick = 0 ∧ (flshm_message_clear s).size = 0 ∧
      (flshm_message_clear s).body = s.body ∧
      (flshm_message_clear s).conns = s.conns) := by
  refine ⟨rfl, fun s m h => ?_, fun s => ⟨rfl, rfl, rfl, rfl, rfl⟩⟩
  by_cases hle : (flshm_body_enc m).length ≤ FLSHM_MESSAGE_MAX_SIZE
  · simp [flshm_message_write, flshm_message_tick, hle]
  · simp [flshm_message_write, hle] at h

/-- Witness for `flshm_tick_clear_semantics`: after successfully writing the
concrete message `mC2` (tick 7) on a fresh segment, tick reports 7. -/
theorem flshm_tick_clear_semantics_witness :
    (flshm_message_write flshm_init mC2).1 = true ∧
    flshm_message_tick (flshm_message_write flshm_init mC2).2 = mC2.tick := by
  have h : (flshm_message_write flshm_init mC2).1 = true := by decide
  exact ⟨h, flshm_tick_clear_semantics.2.1 flshm_init mC2 h⟩

/-- C8: when the tick field in the segment is zero, read returns an absent
result (no message record) rather than an error; absence from tick or read
is a normal value-level outcome (read is a pure observation of the segment
and by construction leaves it unchanged). -/
theorem flshm_read_absent (s : flshm_shm) (h : flshm_message_tick s = 0) :
    flshm_message_read s = none := by
  simp only [flshm_message_tick] at h
  simp [flshm_message_read, h]

/-- Witness for `flshm_read_absent`: a fresh segment has tick 0 and read
returns none on it. -/
theorem flshm_read_absent_witness :
    flshm_message_tick flshm_init = 0 ∧ flshm_message_read flshm_init = none :=
  ⟨rfl, flshm_read_absent flshm_init rfl⟩

/-! ## Registry lemmas -/

/-- When the first-index scan finds an index, the list splits at it: a
matching element at position `i`, preceded only by non-matching ones. -/
theorem firstIdxP_eq_some {α : Type} {p : α → Bool} {l : List α} {i : Nat}
    (h : firstIdxP p l = some i) :
    ∃ l1 o l2, l = l1 ++ o :: l2 ∧ l1.length = i ∧ p o = true ∧
      ∀ o' ∈ l1, p o' = false := by
  induction l generalizing i with
  | nil => simp [firstIdxP] at h
  | cons o rest ih =>
    by_cases hp : p o
    · simp only [firstIdxP, hp, if_pos, Option.some.injEq] at h
      exact ⟨[], o, rest, rfl, h, hp, by simp⟩
    · rcases hrec : firstIdxP p rest with - | j
      · rw [firstIdxP, if_neg hp, hrec] at h
        simp at h
      · rw [firstIdxP, if_neg hp, hrec] at h
        simp only [Option.map_some', Option.some.injEq] at h
        obtain ⟨l1, o', l2, rfl, hlen, hpo, hall⟩ := ih hrec
        refine ⟨o :: l1, o', l2, rfl, by simp [hlen, h], hpo, ?_⟩
        intro x hx
        rcases List.mem_cons.1 hx with hx | hx
        · subst hx; exact Bool.eq_false_iff.2 hp
        · exact hall x hx

/-- The first-index scan fails exactly when no element matches. -/
theorem firstIdxP_eq_none_iff {α : Type} {p : α → Bool} {l : List α} :
    firstIdxP p l = none ↔ ∀ o ∈ l, p o = false := by
  induction l with
  | nil => simp [firstIdxP]
  | cons o rest ih =>
    by_cases hp : p o
    · simp [firstIdxP, hp]
    · have hp' : p o = false := Bool.eq_false_iff.2 hp
      simp [firstIdxP, hp', Option.map_eq_none', ih]

/-- Setting at the junction index replaces the middle element. -/
theorem set_at_middle {α : Type} (l1 : List α) (o x : α) (l2 : List α) :
    (l1 ++ o :: l2).set l1.length x = l1 ++ x :: l2 := by
  induction l1 with
  | nil => rfl
  | cons a t ih => simp [ih]

/-- A list of slots that are all populated contributes its full length to
the populated view. -/
theorem filterMap_id_length_all_some {α : Type} {l : List (Option α)}
    (h : ∀ o ∈ l, o.isNone = false) : (l.filterMap id).length = l.length := by
  induction l with
  | nil => rfl
  | cons o rest ih =>
    rcases o with - | a
    · exact absurd (h none (List.mem_cons_self _ _)) (by simp)
    · have hstep : List.filterMap id (some a :: rest) =
          a :: List.filterMap id rest := by simp
      rw [hstep, List.length_cons, List.length_cons,
        ih fun o ho => h o (List.mem_cons_of_mem _ ho)]

/-- Splitting an add-success: under the invariant, when the name is valid,
the registry is not full and the name is not present, add succeeds and the
slot list splits around the first free slot. -/
theorem flshm_connection_add_success {s : flshm_shm} {c : flshm_connection}
    (hinv : flshm_registry_inv s)
    (hvalid : flshm_connection_name_valid c.name = true)
    (hroom : (flshm_connection_list s).length < FLSHM_CONNECTIONS_MAX_COUNT)
    (hdup : (flshm_connection_list s).any (fun e => e.name == c.name) = false) :
    ∃ l1 l2, s.conns = l1 ++ none :: l2 ∧
      flshm_connection_add s c =
        (true, { s with conns := l1 ++ some c :: l2 }) := by
  obtain ⟨hlen, -, -⟩ := hinv
  rcases hfind : firstIdxP (fun o : Option flshm_connection => o.isNone)
      s.conns with - | i
  · exfalso
    have hall := firstIdxP_eq_none_iff.1 hfind
    have : (flshm_connection_list s).length = s.conns.length :=
      filterMap_id_length_all_some hall
    omega
  · obtain ⟨l1, o, l2, hsplit, hlen1, hpo, -⟩ := firstIdxP_eq_some hfind
    have ho : o = none := by simpa using hpo
    subst ho
    refine ⟨l1, l2, hsplit, ?_⟩
    have hset : s.conns.set i (some c) = l1 ++ some c :: l2 := by
      rw [hsplit, ← hlen1, set_at_middle]
    simp [flshm_connection_add, hvalid, hroom, hdup, hfind, hset]

/-- C6: list, add and remove preserve the registry invariant (at most 8
entries, populated entries with distinct valid names), and add returns
false without mutating state when the registry holds 8 entries, when the
name is already present, or when the name is invalid. -/
theorem flshm_registry_invariant_ops (s : flshm_shm) (c : flshm_connection)
    (h : flshm_registry_inv s) :
    ((flshm_connection_list s).length ≤ FLSHM_CONNECTIONS_MAX_COUNT ∧
      (∀ e ∈ flshm_connection_list s,
        flshm_connection_name_valid e.name = true) ∧
      ((flshm_connection_list s).map flshm_connection.name).Nodup) ∧
    flshm_registry_inv (flshm_connection_add s c).2 ∧
    flshm_registry_inv (flshm_connection_remove s c).2 ∧
    (FLSHM_CONNECTIONS_MAX_COUNT ≤ (flshm_connection_list s).length →
      flshm_connection_add s c = (false, s)) ∧
    ((flshm_connection_list s).any (fun e => e.name == c.name) = true →
      flshm_connection_add s c = (false, s)) ∧
    (flshm_connection_name_valid c.name = false →
      flshm_connection_add s c = (false, s)) := by
  obtain ⟨hlen, hval, hnd⟩ := h
  have hle : (flshm_connection_list s).length ≤ FLSHM_CONNECTIONS_MAX_COUNT := by
    have : (flshm_connection_list s).length ≤ s.conns.length :=
      List.length_filterMap_le id s.conns
    omega
  refine ⟨⟨hle, hval, hnd⟩, ?_, ?_, ?_, ?_, ?_⟩
  · -- add preserves the invariant
    by_cases hvalid : flshm_connection_name_valid c.name
    · by_cases hroom :
        (flshm_connection_list s).length < FLSHM_CONNECTIONS_MAX_COUNT
      · rcases hdup : (flshm_connection_list s).any
            (fun e => e.name == c.name) with - | -
        · obtain ⟨l1, l2, hsplit, hadd⟩ :=
            flshm_connection_add_success ⟨hlen, hval, hnd⟩ hvalid hroom hdup
          rw [hadd]
          have hA : flshm_connection_list s =
              l1.filterMap id ++ l2.filterMap id := by
            unfold flshm_connection_list
            rw [hsplit]
            simp
          have hnotin : c.name ∉ (flshm_connection_list s).map
              flshm_connection.name := by
            intro hmem
            obtain ⟨e, he, hename⟩ := List.mem_map.1 hmem
            have hbad := List.any_eq_false.mp hdup e he
            rw [hename] at hbad
            simp at hbad
          refine ⟨?_, ?_, ?_⟩
          · simpa [hsplit] using hlen
          · intro e he
            simp only [flshm_connection_list, List.filterMap_append,
              List.filterMap_cons_some, id] at he
            rcases List.mem_append.1 he with he | he
            · exact hval e (by rw [hA]; exact List.mem_append_left _ he)
            · rcases List.mem_cons.1 he with he | he
              · subst he; exact hvalid
              · exact hval e (by rw [hA]; exact List.mem_append_right _ he)
          · have hperm :
                ((l1.filterMap id ++ c :: l2.filterMap id).map
                  flshm_connection.name).Perm
                (c.name :: ((l1.filterMap id ++ l2.filterMap id).map
                  flshm_connection.name)) := by
              simp [List.perm_middle.map flshm_connection.name]
            simp only [flshm_connection_list, List.filterMap_append,
              List.filterMap_cons_some, id]
            refine hperm.nodup_iff.2 (List.nodup_cons.2 ⟨?_, ?_⟩)
            · rw [← hA]; exact hnotin
            · rw [← hA]; exact hnd
        · have heq : flshm_connection_add s c = (false, s) := by
            simp [flshm_connection_add, hvalid, hroom, hdup]
          rw [heq]
          exact ⟨hlen, hval, hnd⟩
      · have heq : flshm_connection_add s c = (false, s) := by
          simp [flshm_connection_add, hvalid, hroom]
        rw [heq]
        exact ⟨hlen, hval, hnd⟩
    · have heq : flshm_connection_add s c = (false, s) := by
        simp [flshm_connection_add, hvalid]
      rw [heq]
      exact ⟨hlen, hval, hnd⟩
  · -- remove preserves the invariant
    rcases hfind : firstIdxP (connMatches c) s.conns with - | i
    · simp only [flshm_connection_remove, hfind]
      exact ⟨hlen, hval, hnd⟩
    · obtain ⟨l1, o, l2, hsplit, hlen1, hpo, -⟩ := firstIdxP_eq_some hfind
      rcases o with - | e
      · simp [connMatches] at hpo
      · simp only [flshm_connection_remove, hfind]
        have hsub : (l1 ++ none :: l2).filterMap
            (id : Option flshm_connection → Option flshm_connection)
            |>.Sublist ((l1 ++ some e :: l2).filterMap id) := by
          simp only [List.filterMap_append, List.filterMap_cons_none,
            List.filterMap_cons_some, id]
          exact (List.sublist_cons_self e _).append_left _
        have hset : s.conns.set i none = l1 ++ none :: l2 := by
          rw [hsplit, ← hlen1, set_at_middle]
        refine ⟨?_, ?_, ?_⟩
        · simpa [hset, hsplit] using hlen
        · intro x hx
          refine hval x ?_
          have := hsub.mem (by simpa [flshm_connection_list, hset] using hx)
          simpa [flshm_connection_list, hsplit] using this
        · have := hnd
          rw [flshm_connection_list, hsplit] at this
          have hnd2 := (hsub.map flshm_connection.name).nodup this
          simpa [flshm_connection_list, hset] using hnd2
  · intro hfull
    have hnroom :
        ¬ (flshm_connection_list s).length < FLSHM_CONNECTIONS_MAX_COUNT := by
      omega
    by_cases hvalid : flshm_connection_name_valid c.name <;>
      simp [flshm_connection_add, hvalid, hnroom]
  · intro hdup
    by_cases hvalid : flshm_connection_name_valid c.name <;>
      by_cases hroom :
        (flshm_connection_list s).length < FLSHM_CONNECTIONS_MAX_COUNT <;>
      simp [flshm_connection_add, hvalid, hroom, hdup]
  · intro hvalid
    simp [flshm_connection_add, hvalid]

/-- Witness for `flshm_registry_invariant_ops`: a fresh empty registry
satisfies the invariant and still does after adding a sample connection. -/
theorem flshm_registry_invariant_ops_witness :
    flshm_registry_inv flshm_init ∧
    flshm_registry_inv (flshm_connection_add flshm_init cSample).2 :=
  ⟨by decide,
    (flshm_registry_invariant_ops flshm_init cSample (by decide)).2.1⟩

/-- Counterexample to C7 as stated: on a fresh empty registry, add with an
invalid (empty) name returns false with the segment unmodified, even though
neither of the claim's listed failure conditions for add (capacity
exhausted, duplicate name) holds. -/
theorem flshm_registry_add_invalid_cex :
    (flshm_connection_add flshm_init cInvalid).1 = false ∧
    (flshm_connection_add flshm_init cInvalid).2 = flshm_init ∧
    (flshm_connection_list flshm_init).length <
      FLSHM_CONNECTIONS_MAX_COUNT ∧
    (flshm_connection_list flshm_init).any
      (fun e => e.name == cInvalid.name) = false :=
  ⟨by decide, rfl, by decide, by decide⟩

/-- C7 (amended): add returns false exactly when the name is invalid, the
registry already holds 8 entries, or the name is already present; remove
returns false exactly when no populated entry bears the given name; on any
such failure the segment is left unmodified; and a successful remove clears
only the matched slot's sentinel, leaving every other slot in place (no
shifting). -/
theorem flshm_registry_failure_exact (s : flshm_shm) (c : flshm_connection)
    (h : flshm_registry_inv s) :
    ((flshm_connection_add s c).1 = false ↔
      (flshm_connection_name_valid c.name = false ∨
       FLSHM_CONNECTIONS_MAX_COUNT ≤ (flshm_connection_list s).length ∨
       (flshm_connection_list s).any (fun e => e.name == c.name) = true)) ∧
    ((flshm_connection_add s c).1 = false →
      (flshm_connection_add s c).2 = s) ∧
    ((flshm_connection_remove s c).1 = false ↔
      ∀ e ∈ flshm_connection_list s, e.name ≠ c.name) ∧
    ((flshm_connection_remove s c).1 = false →
      (flshm_connection_remove s c).2 = s) ∧
    ((flshm_connection_remove s c).1 = true →
      ∃ l1 e l2, s.conns = l1 ++ some e :: l2 ∧ e.name = c.name ∧
        (flshm_connection_remove s c).2 =
          { s with conns := l1 ++ none :: l2 }) := by
  have hiff : firstIdxP (connMatches c) s.conns = none ↔
      ∀ e ∈ flshm_connection_list s, e.name ≠ c.name := by
    rw [firstIdxP_eq_none_iff]
    constructor
    · intro hall e he hname
      obtain ⟨a, ha, haeq⟩ := List.mem_filterMap.1 he
      have hmem : some e ∈ s.conns := by
        have : a = some e := haeq
        exact this ▸ ha
      have := hall (some e) hmem
      simp [connMatches, hname] at this
    · intro hnone o ho
      rcases o with - | e
      · rfl
      · have he : e ∈ flshm_connection_list s :=
          List.mem_filterMap.2 ⟨some e, ho, rfl⟩
        have hne := hnone e he
        simp only [connMatches]
        exact beq_eq_false_iff_ne.mpr hne
  refine ⟨⟨?_, ?_⟩, ?_, ?_, ?_, ?_⟩
  · intro hfalse
    by_contra hcon
    push_neg at hcon
    obtain ⟨h1, h2, h3⟩ := hcon
    have hvalid : flshm_connection_name_valid c.name = true := by
      cases hv : flshm_connection_name_valid c.name
      · exact absurd hv h1
      · rfl
    have hroom :
        (flshm_connection_list s).length < FLSHM_CONNECTIONS_MAX_COUNT := by
      omega
    have hdup : (flshm_connection_list s).any
        (fun e => e.name == c.name) = false := by
      cases hd : (flshm_connection_list s).any (fun e => e.name == c.name)
      · rfl
      · exact absurd hd h3
    obtain ⟨l1, l2, -, hadd⟩ :=
      flshm_connection_add_success h hvalid hroom hdup
    rw [hadd] at hfalse
    simp at hfalse
  · intro hcond
    rcases hcond with hc | hc | hc
    · simp [flshm_connection_add, hc]
    · have hnroom :
          ¬ (flshm_connection_list s).length < FLSHM_CONNECTIONS_MAX_COUNT := by
        omega
      by_cases hvalid : flshm_connection_name_valid c.name <;>
        simp [flshm_connection_add, hvalid, hnroom]
    · by_cases hvalid : flshm_connection_name_valid c.name <;>
        by_cases hroom :
          (flshm_connection_list s).length < FLSHM_CONNECTIONS_MAX_COUNT <;>
        simp [flshm_connection_add, hvalid, hroom, hc]
  · intro hfalse
    by_cases hvalid : flshm_connection_name_valid c.name
    · by_cases hroom :
          (flshm_connection_list s).length < FLSHM_CONNECTIONS_MAX_COUNT
      · rcases hdup : (flshm_connection_list s).any
            (fun e => e.name == c.name) with - | -
        · obtain ⟨l1, l2, -, hadd⟩ :=
            flshm_connection_add_success h hvalid hroom hdup
          rw [hadd] at hfalse
          simp at hfalse
        · simp [flshm_connection_add, hvalid, hroom, hdup]
      · simp [flshm_connection_add, hvalid, hroom]
    · simp [flshm_connection_add, hvalid]
  · constructor
    · intro hfalse
      rcases hfind : firstIdxP (connMatches c) s.conns with - | i
      · exact hiff.1 hfind
      · simp [flshm_connection_remove, hfind] at hfalse
    · intro hnone
      simp [flshm_connection_remove, hiff.2 hnone]
  · intro hfalse
    rcases hfind : firstIdxP (connMatches c) s.conns with - | i
    · simp [flshm_connection_remove, hfind]
    · simp [flshm_connection_remove, hfind] at hfalse
  · intro htrue
    rcases hfind : firstIdxP (connMatches c) s.conns with - | i
    · simp [flshm_connection_remove, hfind] at htrue
    · obtain ⟨l1, o, l2, hsplit, hlen1, hpo, -⟩ := firstIdxP_eq_some hfind
      rcases o with - | e
      · simp [connMatches] at hpo
      · have hname : e.name = c.name := by
          simpa [connMatches] using hpo
        have hset : s.conns.set i none = l1 ++ none :: l2 := by
          rw [hsplit, ← hlen1, set_at_middle]
        exact ⟨l1, e, l2, hsplit, hname,
          by simp [flshm_connection_remove, hfind, hset]⟩

/-- Witness for `flshm_registry_failure_exact`: on the fresh empty registry
(which satisfies the invariant), removing a never-added connection returns
false. -/
theorem flshm_registry_failure_exact_witness :
    flshm_registry_inv flshm_init ∧
    (flshm_connection_remove flshm_init cSample).1 = false :=
  ⟨by decide,
    (flshm_registry_failure_exact flshm_init cSample (by decide)).2.2.1.mpr
      (by decide)⟩

/-! ## CLI lemmas -/

/-- The decoder always returns `⌊input length / 2⌋` bytes and reports that
length. -/
theorem hex_to_bin_len (hex : List Nat) :
    (hex_to_bin hex).1.length = hex.length / 2 ∧
    (hex_to_bin hex).2 = hex.length / 2 := by
  unfold hex_to_bin
  simp only [List.length_map, List.length_range]
  constructor <;> split <;> omega

/-- Counterexample to C9 as stated: the thirteen arguments of `argvBadHex`
carry a data argument containing no hexadecimal digit at all, yet the tool
reports nothing — the argument phase proceeds to the locked write with a
silently fabricated one-byte argument block, prints nothing, and
contributes exit status 0. -/
theorem flshm_cli_hex_silent_cex :
    (∀ b ∈ argvBadHex.getD 12 [], isHexDigitB b = false) ∧
    flshmmessagewrite_parse argvBadHex =
      .proceed
        { tick := 1, amfl := 0, name := asciiBytes "n",
          host := asciiBytes "h", version := 1, sandboxed := false,
          https := false, sandbox := 0, swfv := 0,
          filepath := asciiBytes "f", amfv := 0, method := asciiBytes "m",
          size := 1, data := [0] } ∧
    cli_printed (flshmmessagewrite_parse argvBadHex) = [] ∧
    cli_code (flshmmessagewrite_parse argvBadHex) = 0 := by
  refine ⟨by decide, by decide, by decide, by decide⟩

/-- C9 (amended): every positional-argument parsing failure of the
message-writing tool prints a message with the distinguishing prefix
`ERROR: ` to the standard output stream and makes the process exit with a
non-zero status; hex decoding has no failure path — whenever the argument
count suffices and the four scanned numeric arguments parse (tick
non-zero), the tool proceeds regardless of the data argument's content, so
there is no hex-decoding failure to report. -/
theorem flshm_cli_parse_errors_reported :
    (∀ (argv : List (List Nat)) (f a : List Nat),
      flshmmessagewrite_parse argv = .errorAt f a →
      (cli_printed (flshmmessagewrite_parse argv)).take 7 =
        asciiBytes "ERROR: " ∧
      cli_code (flshmmessagewrite_parse argv) ≠ 0) ∧
    (∀ argv : List (List Nat), 13 ≤ argv.length →
      ∀ t sb sw av : Nat,
        sscanf_u (argv.getD 1 []) = some t → t ≠ 0 →
        sscanf_u (argv.getD 7 []) = some sb →
        sscanf_u (argv.getD 8 []) = some sw →
        sscanf_u (argv.getD 10 []) = some av →
        ∃ m, flshmmessagewrite_parse argv = .proceed m) := by
  constructor
  · intro argv f a h
    rw [h]
    constructor
    · simp only [cli_printed, List.append_assoc]
      rw [show (7 : Nat) = (asciiBytes "ERROR: ").length from rfl]
      exact List.take_left (asciiBytes "ERROR: ") _
    · simp [cli_code]
  · intro argv h13 t sb sw av ht ht0 hsb hsw hav
    have hn : ¬ argv.length < 13 := by omega
    unfold flshmmessagewrite_parse
    simp only [if_neg hn, ht, hsb, hsw, hav, if_neg ht0]
    exact ⟨_, rfl⟩

/-- Witness for `flshm_cli_parse_errors_reported`: the non-numeric tick
argument of `argvNoTick` is reported with the `ERROR: ` prefix and a
non-zero status, and the well-formed `argvGood` proceeds. -/
theorem flshm_cli_parse_errors_reported_witness :
    flshmmessagewrite_parse argvNoTick =
      .errorAt (asciiBytes "tick") (asciiBytes "x") ∧
    (cli_printed (flshmmessagewrite_parse argvNoTick)).take 7 =
      asciiBytes "ERROR: " ∧
    cli_code (flshmmessagewrite_parse argvNoTick) ≠ 0 ∧
    (13 : Nat) ≤ argvGood.length ∧
    ∃ m, flshmmessagewrite_parse argvGood = .proceed m := by
  have h : flshmmessagewrite_parse argvNoTick =
      .errorAt (asciiBytes "tick") (asciiBytes "x") := by decide
  obtain ⟨h1, h2⟩ := flshm_cli_parse_errors_reported.1 argvNoTick _ _ h
  exact ⟨h, h1, h2, by decide,
    flshm_cli_parse_errors_reported.2 argvGood (by decide) 5 5 9 3
      (by decide) (by decide) (by decide) (by decide) (by decide)⟩

/-- C10: the CLI hex decoder is total and never signals failure — for every
input it returns a buffer of exactly `⌊length / 2⌋` bytes and reports that
length (an odd final character is silently discarded) — and whenever the
tool's argument phase proceeds, the built record's argument-block size is
exactly the data argument's length halved (it comes from `hex_to_bin`, not
from the separate `size` positional listed in the usage string). -/
theorem flshm_hex_to_bin_total_size :
    (∀ hex : List Nat,
      (hex_to_bin hex).1.length = hex.length / 2 ∧
      (hex_to_bin hex).2 = hex.length / 2 ∧
      (hex.length % 2 = 1 →
        (hex_to_bin hex).2 = (hex.length - 1) / 2)) ∧
    (∀ (argv : List (List Nat)) (m : flshm_message),
      flshmmessagewrite_parse argv = .proceed m →
      m.size = (argv.getD 12 []).length / 2 ∧
      m.size = (hex_to_bin (argv.getD 12 [])).2 ∧
      m.data = (hex_to_bin (argv.getD 12 [])).1) := by
  constructor
  · intro hex
    obtain ⟨h1, h2⟩ := hex_to_bin_len hex
    refine ⟨h1, h2, fun hodd => ?_⟩
    rw [h2]
    omega
  · intro argv m h
    unfold flshmmessagewrite_parse at h
    split at h
    · simp at h
    · split at h
      · simp at h
      · split at h
        · simp at h
        · split at h
          · simp at h
          · split at h
            · simp at h
            · split at h
              · simp at h
              · injection h with h
                subst h
                exact ⟨(hex_to_bin_len _).2, rfl, rfl⟩

/-- Witness for `flshm_hex_to_bin_total_size`: the tool proceeds on
`argvGood`, whose 4-character hex argument yields the 2-byte block
`[10, 255]` and size 2. -/
theorem flshm_hex_to_bin_total_size_witness :
    flshmmessagewrite_parse argvGood = .proceed mGood ∧
    mGood.size = (argvGood.getD 12 []).length / 2 ∧
    mGood.data = (hex_to_bin (argvGood.getD 12 [])).1 := by
  have h : flshmmessagewrite_parse argvGood = .proceed mGood := by decide
  obtain ⟨h1, -, h3⟩ := flshm_hex_to_bin_total_size.2 argvGood mGood h
  exact ⟨h, h1, h3⟩

end Flshm
